import Mathlib

/-!
Shallow embedding of the translation QC workflow of the AIDE-RegGenie
repository (`src/components/TranslationTool.tsx` and
`src/services/geminiService.ts`), together with proofs about it.

Modelling conventions:
* JavaScript numbers are modelled in exact arithmetic (`Nat`, `Int`, `ℚ`);
  `Math.round` is modelled as `jsRound q = ⌊q + 1/2⌋` (round half towards +∞).
* `localStorage['aide_translation_metrics']` is modelled as a
  `List TranslationLog` field of the component state.
* Remote calls (the Gemini gateway) are modelled as explicit function
  parameters; a call that throws is modelled as `Except.error` / `Option.none`.
* Out-of-range JavaScript array reads (which yield `undefined`) only occur
  outside the hypotheses of the theorems below; they are modelled with `getD`.
-/

/-- The JavaScript `\s` whitespace class, restricted to the ASCII range
(space, tab, line feed, carriage return, vertical tab, form feed). -/
def jsWs (c : Char) : Bool :=
  c = ' ' || c = '\t' || c = '\n' || c = '\r' || c = Char.ofNat 11 || c = Char.ofNat 12

mutual

/-- Worker for `jsSplitWs`: `acc` holds the (reversed) characters of the token
currently being read. -/
def splitGo (l : List Char) (acc : List Char) : List String :=
  match l with
  | [] => [String.mk acc.reverse]
  | c :: rest =>
    if jsWs c then String.mk acc.reverse :: skipWs rest
    else splitGo rest (c :: acc)

/-- Worker for `jsSplitWs`: inside a whitespace run; a run that reaches the
end of the input contributes a final empty token. -/
def skipWs (l : List Char) : List String :=
  match l with
  | [] => [""]
  | c :: rest =>
    if jsWs c then skipWs rest
    else splitGo rest [c]

end

/-- JavaScript `text.split(/\s+/)`: split on maximal whitespace runs.  Leading
(resp. trailing) whitespace contributes a leading (resp. trailing) empty
token, and `"".split(/\s+/) = [""]`. -/
def jsSplitWs (s : String) : List String :=
  splitGo s.data []

/-- JavaScript `array.join(' ')` for string arrays. -/
def joinSp : List String → String
  | [] => ""
  | [t] => t
  | t :: rest => t ++ " " ++ joinSp rest

/-- JavaScript `String.prototype.trim` (whitespace as in `jsWs`). -/
def trimJs (s : String) : String :=
  String.mk (((s.data.dropWhile jsWs).reverse.dropWhile jsWs).reverse)

/-- JavaScript `s.startsWith p` (`p` is a literal pattern). -/
def strTakeEq (s p : String) : Bool :=
  s.data.take p.data.length = p.data

/-- JavaScript `s.endsWith p` (`p` is a literal pattern). -/
def strEndsEq (s p : String) : Bool :=
  s.data.drop (s.data.length - p.data.length) = p.data && p.data.length ≤ s.data.length

/-- JavaScript `Math.round`: round half towards positive infinity. -/
def jsRound (q : ℚ) : ℤ := ⌊q + 1/2⌋

/-- MQM error severity of a correction.  Modelled from the spec: the
`MQMSeverity` enum of `types.ts` (not under `src/`) with levels
Minor, Major, Critical. -/
inductive MQMSeverity where
  | Minor
  | Major
  | Critical
deriving DecidableEq, Repr, Inhabited

/-- QC lifecycle status of a translation session / persisted log
(`'Draft' | 'QC Pending' | 'QC Finalized' | 'Downloaded'`). -/
inductive QcStatus where
  | Draft
  | QCPending
  | QCFinalized
  | Downloaded
deriving DecidableEq, Repr, Inhabited

/-- One human word-level correction (`CorrectionRationale`).  The MQM
taxonomy type is kept as a plain string, its values are immaterial here. -/
structure CorrectionRationale where
  originalText : String
  updatedText : String
  rationale : String
  timestamp : Nat
  pageIndex : Nat
  wordIndex : Nat
  mqmSeverity : MQMSeverity
  mqmType : String
deriving DecidableEq, Repr, Inhabited

/-- One `workflowTimeCodes` entry (`{event, timestamp}`). -/
structure TimeCode where
  event : String
  timestamp : Nat
deriving DecidableEq, Repr, Inhabited

/-- A persisted `TranslationLog` record.  `mqmErrorScore` and `qualityScore`
are absent (`none`) until the first confirmed intervention sets them.
Enum-valued fields whose declarations live in `types.ts` (not under `src/`)
are kept as strings. -/
structure TranslationLog where
  id : String
  trackingId : String
  functionalGroup : String
  projectNumber : String
  docType : String
  timestamp : Nat
  sourceLanguage : String
  targetLanguage : String
  wordCount : Nat
  charCount : Nat
  pageCount : Nat
  mode : String
  provider : String
  status : QcStatus
  qcTimeSpentSeconds : Nat
  workflowTimeCodes : List TimeCode
  estimatedCost : ℚ
  rationales : List CorrectionRationale
  mqmErrorScore : Option Nat := none
  qualityScore : Option ℤ := none
deriving DecidableEq, Repr, Inhabited

/-- Severity weight used by the MQM error score (Minor=1, Major=5,
Critical=10); the source folds this over the rationales. -/
def sevWeight (s : MQMSeverity) : Nat :=
  match s with
  | .Minor => 1
  | .Major => 5
  | .Critical => 10

/-- The fold computing `mqmErrorScore` in `confirmIntervention`
(`TranslationTool.tsx` lines 317-321): `reduce` with Minor → +1,
Major → +5, anything else → +10. -/
def mqmFold (rats : List CorrectionRationale) : Nat :=
  rats.foldl
    (fun acc curr =>
      if curr.mqmSeverity = MQMSeverity.Minor then acc + 1
      else if curr.mqmSeverity = MQMSeverity.Major then acc + 5
      else acc + 10)
    0

/-- `qualityScore = Math.max(0, Math.round(100 * (1 - weights / wordCount)))`
(`TranslationTool.tsx` line 324), in exact arithmetic.  When `wordCount = 0`
the JavaScript expression evaluates to `-Infinity` (the fold result is ≥ 1
whenever it runs), so `max` yields 0; that case is made explicit here because
rational division by zero differs from IEEE division. -/
def computeQuality (weights : Nat) (wordCount : Nat) : ℤ :=
  if wordCount = 0 then 0
  else max 0 (jsRound (100 * (1 - (weights : ℚ) / (wordCount : ℚ))))

/-- `String(n).padStart(3, '0')`. -/
def padZero3 (n : Nat) : String :=
  let s := toString n
  if s.length < 3 then String.mk (List.replicate (3 - s.length) '0') ++ s else s

/-- `generateTrackingId` (`TranslationTool.tsx` lines 11-17), as a function of
the persisted log collection and the current year. -/
def generateTrackingId (year : Nat) (existingLogs : List TranslationLog) : String :=
  let yearLogs := existingLogs.filter (fun l => strTakeEq l.trackingId (toString year))
  toString year ++ "-" ++ padZero3 (yearLogs.length + 1)

/-- `TOKEN_FACTOR = 1.35` (`TranslationTool.tsx` line 74). -/
def TOKEN_FACTOR : ℚ := 1.35

/-- `COST_PER_1M_TOKENS = 0.75` (`TranslationTool.tsx` line 75). -/
def COST_PER_1M_TOKENS : ℚ := 0.75

/-- `calculateMetrics` (`TranslationTool.tsx` lines 113-122) as a pure
function returning `(wordCount, tokenCount, estimatedCost)`; the source
writes the three values into component state. -/
def calculateMetrics (pages : List String) : Nat × Nat × ℚ :=
  let text := joinSp pages
  let words := ((jsSplitWs text).filter (fun w => w.length > 0)).length
  let tokens := (jsRound ((words : ℚ) * TOKEN_FACTOR)).toNat
  let cost := ((tokens : ℚ) / 1000000) * COST_PER_1M_TOKENS
  (words, tokens, cost)

/-- `updatePersistentStatus` (`TranslationTool.tsx` lines 101-111): set the
status of the first stored log whose `id` matches, if any. -/
def updatePersistentStatus (store : List TranslationLog) (logId : String)
    (newStatus : QcStatus) : List TranslationLog :=
  match store.findIdx? (fun m => m.id = logId) with
  | none => store
  | some idx => store.set idx { store.getD idx default with status := newStatus }

/-- The word selected for intervention (`selectedWordData`). -/
structure SelWord where
  word : String
  index : Nat
deriving DecidableEq, Repr, Inhabited

/-- The in-memory state of the `TranslationTool` component.  `store` models
`localStorage['aide_translation_metrics']`; `alerts` collects the messages
passed to `alert`.  Purely presentational state (speech synthesis, QC timer,
progress text, pagination buttons, large-screen toggle) is omitted. -/
structure ToolState where
  projectNumber : String
  currentTrackingId : String
  currentLogId : String
  sourceLanguage : String
  targetLanguage : String
  docType : String
  initiateTranslation : Bool
  sourcePages : List String
  editedPages : List String
  currentPage : Nat
  wordCount : Nat
  tokenCount : Nat
  estimatedCost : ℚ
  isReviewMode : Bool
  qcStatus : QcStatus
  rationales : List CorrectionRationale
  isWordModalOpen : Bool
  selectedWordData : Option SelWord
  alternatives : List String
  selectedAlt : String
  mqmSeverity : MQMSeverity
  mqmType : String
  rationaleText : String
  isLoading : Bool
  store : List TranslationLog
  alerts : List String

/-- The component's initial state (the `useState` initialisers of
`TranslationTool.tsx` lines 27-70, with an empty persisted store). -/
def initState : ToolState where
  projectNumber := "AZ-PH1-2025"
  currentTrackingId := ""
  currentLogId := ""
  sourceLanguage := "Detecting..."
  targetLanguage := "Spanish"
  docType := "EssentialDocuments"
  initiateTranslation := false
  sourcePages := []
  editedPages := []
  currentPage := 0
  wordCount := 0
  tokenCount := 0
  estimatedCost := 0
  isReviewMode := false
  qcStatus := .Draft
  rationales := []
  isWordModalOpen := false
  selectedWordData := none
  alternatives := []
  selectedAlt := ""
  mqmSeverity := .Minor
  mqmType := "Terminology"
  rationaleText := ""
  isLoading := false
  store := []
  alerts := []

/-- The `CorrectionRationale` record built by `confirmIntervention`
(`TranslationTool.tsx` lines 296-305). -/
def confirmRationale (s : ToolState) (now : Nat) (wd : SelWord) : CorrectionRationale where
  originalText := wd.word
  updatedText := s.selectedAlt
  rationale := s.rationaleText
  timestamp := now
  pageIndex := s.currentPage
  wordIndex := wd.index
  mqmSeverity := s.mqmSeverity
  mqmType := s.mqmType

/-- The log update performed by `confirmIntervention`
(`TranslationTool.tsx` lines 314-324): append the rationale, recompute
`mqmErrorScore` by the severity fold and `qualityScore` by the quality
formula. -/
def confirmLogUpdate (log : TranslationLog) (rat : CorrectionRationale) : TranslationLog :=
  let rats := log.rationales ++ [rat]
  let weights := mqmFold rats
  { log with
    rationales := rats
    mqmErrorScore := some weights
    qualityScore := some (computeQuality weights log.wordCount) }

/-- `confirmIntervention` (`TranslationTool.tsx` lines 285-333) as a state
transformer; `now` stands for `Date.now()`. -/
def confirmIntervention (now : Nat) (s : ToolState) : ToolState :=
  match s.selectedWordData with
  | none => s
  | some wd =>
    if s.selectedAlt = "" ∨ s.rationaleText = "" then s
    else
      let words := jsSplitWs (s.editedPages.getD s.currentPage "")
      let newPageText := joinSp (words.set wd.index s.selectedAlt)
      let newPages := s.editedPages.set s.currentPage newPageText
      let rat : CorrectionRationale := confirmRationale s now wd
      let store' :=
        match s.store.findIdx? (fun m => m.id = s.currentLogId) with
        | none => s.store
        | some idx => s.store.set idx (confirmLogUpdate (s.store.getD idx default) rat)
      { s with
        editedPages := newPages
        rationales := s.rationales ++ [rat]
        store := store'
        isWordModalOpen := false
        selectedAlt := ""
        rationaleText := "" }

/-- The per-page translation loop of `translateDocument`
(`geminiService.ts` lines 76-91): `g` is the remote gateway (one call per
page; a thrown error is `Except.error`).  Returns the list of pages actually
sent to the gateway, in call order, together with the overall outcome. -/
def translateGo (g : String → Except Unit String) :
    List String → List String × Except Unit (List String)
  | [] => ([], Except.ok [])
  | p :: rest =>
    match g p with
    | Except.error e => ([p], Except.error e)
    | Except.ok t =>
      let r := translateGo g rest
      (p :: r.1,
        match r.2 with
        | Except.ok ts => Except.ok (t :: ts)
        | Except.error e => Except.error e)

/-- The value of a successful gateway call (`response.text || ''`);
unused default for the error case. -/
def getOk (r : Except Unit String) : String :=
  match r with
  | Except.ok t => t
  | Except.error _ => ""

/-- The log record written by `handleTranslate` on success
(`TranslationTool.tsx` lines 242-261); `now` stands for `Date.now()` and
`pages` for the translated output. -/
def mkStartLog (s : ToolState) (now : Nat) (pages : List String) : TranslationLog where
  id := s.currentLogId
  trackingId := s.currentTrackingId
  functionalGroup := "ClinicalOperations"
  projectNumber := s.projectNumber
  docType := s.docType
  timestamp := now
  sourceLanguage := s.sourceLanguage
  targetLanguage := s.targetLanguage
  wordCount := s.wordCount
  charCount := (String.join s.sourcePages).length
  pageCount := pages.length
  mode := "General"
  provider := "Gemini-3-Flash"
  status := .QCPending
  qcTimeSpentSeconds := 0
  workflowTimeCodes := [{ event := "START", timestamp := now }]
  estimatedCost := s.estimatedCost
  rationales := []

/-- `handleTranslate` (`TranslationTool.tsx` lines 232-271).  On success the
output pages are committed, the status becomes QC Pending and a fresh log is
appended to the store; on failure an alert is surfaced and only
`initiateTranslation` is reset.  `isLoading` is set and cleared within the
same atomic step, so its net value is `false`. -/
def handleTranslate (g : String → Except Unit String) (now : Nat)
    (s : ToolState) : ToolState :=
  if s.sourcePages.length = 0 then s
  else
    match (translateGo g s.sourcePages).2 with
    | Except.error _ =>
      { s with
        alerts := s.alerts ++ ["Pipeline Failure"]
        initiateTranslation := false
        isLoading := false }
    | Except.ok pages =>
      { s with
        editedPages := pages
        qcStatus := .QCPending
        store := s.store ++ [mkStartLog s now pages]
        isLoading := false }

/-- User-visible events of the translation session, with the data each
source handler obtains from the environment (`Date.now()`, the current year,
the gateway, the popup window). -/
inductive Event where
  | upload (pages : List String) (now year : Nat)
  | setInitiate
  | translate (g : String → Except Unit String) (now : Nat)
  | toggleReview
  | confirm (now : Nat)
  | finalize
  | downloadWord
  | downloadPDF (popupOk : Bool)

/-- One step of the session state machine.  Guards are the source's enabling
conditions: the auto-translate effect (`TranslationTool.tsx` line 79), the
review-mode button's `disabled` (line 565), the Finalize bar's render
condition (line 597) and the download buttons' render condition (line 497).
`upload` models a successfully parsed `handleFileUpload` (lines 218-225);
note that it resets neither `isReviewMode` nor `currentPage` nor the
in-memory `rationales`. -/
def applyEvent (e : Event) (s : ToolState) : ToolState :=
  match e with
  | .upload pages now year =>
    let m := calculateMetrics pages
    { s with
      sourcePages := pages
      wordCount := m.1
      tokenCount := m.2.1
      estimatedCost := m.2.2
      currentTrackingId := generateTrackingId year s.store
      currentLogId := "trans-" ++ toString now
      initiateTranslation := false
      editedPages := []
      qcStatus := .Draft }
  | .setInitiate => { s with initiateTranslation := true }
  | .translate g now =>
    if s.initiateTranslation = true ∧ s.sourcePages ≠ [] ∧ s.isLoading = false ∧
        s.editedPages = [] then
      handleTranslate g now s
    else s
  | .toggleReview =>
    if s.editedPages = [] then s else { s with isReviewMode := !s.isReviewMode }
  | .confirm now =>
    if s.isWordModalOpen = true then confirmIntervention now s else s
  | .finalize =>
    if s.isReviewMode = true ∧ s.qcStatus ≠ .QCFinalized ∧ s.qcStatus ≠ .Downloaded then
      { s with
        qcStatus := .QCFinalized
        store := updatePersistentStatus s.store s.currentLogId .QCFinalized
        isReviewMode := false }
    else s
  | .downloadWord =>
    if s.qcStatus = .QCFinalized ∨ s.qcStatus = .Downloaded then
      { s with
        qcStatus := .Downloaded
        store := updatePersistentStatus s.store s.currentLogId .Downloaded }
    else s
  | .downloadPDF popupOk =>
    if s.qcStatus = .QCFinalized ∨ s.qcStatus = .Downloaded then
      if popupOk then
        { s with
          qcStatus := .Downloaded
          store := updatePersistentStatus s.store s.currentLogId .Downloaded }
      else s
    else s

/-- Run a sequence of events from a state. -/
def applyEvents (s : ToolState) (es : List Event) : ToolState :=
  es.foldl (fun t e => applyEvent e t) s

/-- The opening curly brace character (written via its code point to keep it
out of string literals). -/
def lcurly : Char := Char.ofNat 123

/-- The closing curly brace character. -/
def rcurly : Char := Char.ofNat 125

/-- Index of the first occurrence of `c` (`String.prototype.indexOf`),
`none` for `-1`. -/
def firstIdx (l : List Char) (c : Char) : Option Nat :=
  l.findIdx? (fun x => x = c)

/-- Index of the last occurrence of `c` (`String.prototype.lastIndexOf`),
`none` for `-1`. -/
def lastIdx (l : List Char) (c : Char) : Option Nat :=
  (l.reverse.findIdx? (fun x => x = c)).map (fun i => l.length - 1 - i)

/-- The fence-stripping of `extractJson` (`geminiService.ts` line 9):
`replace(/^```json/g, '')`, then `replace(/^```/g, '')`, then
`replace(/```$/g, '')`.  Without the `m` flag each anchored pattern matches
at most once. -/
def stripFences (s : String) : String :=
  let s1 := if strTakeEq s "```json" then String.mk (s.data.drop 7) else s
  let s2 := if strTakeEq s1 "```" then String.mk (s1.data.drop 3) else s1
  if strEndsEq s2 "```" then String.mk (s2.data.take (s2.data.length - 3)) else s2

/-- `cleanText.substring(first, last + 1)` guarded by
`first !== -1 && last !== -1 && last > first` (`geminiService.ts`
lines 11-14 and 18-21). -/
def sliceBetween (s : String) (o c : Char) : Option String :=
  match firstIdx s.data o, lastIdx s.data c with
  | some i, some j => if i < j then some (String.mk ((s.data.drop i).take (j - i + 1))) else none
  | _, _ => none

/-- A JSON value, as far as the claims need one. -/
inductive JsonVal where
  | jnum (n : ℤ)
  | jstr (s : String)
  | jarr (elems : List JsonVal)

/-- `extractJson` (`geminiService.ts` lines 6-28), parameterised by the host
JSON parser; `parse` returning `none` models `JSON.parse` throwing.  The
function is total, so "never throws" holds by construction; the three
recovery attempts are tried in source order and the first success wins. -/
def extractJson (parse : String → Option JsonVal) (text : String) : Option JsonVal :=
  if text = "" then none
  else
    let cleanText := stripFences (trimJs text)
    match (sliceBetween cleanText '[' ']').bind parse with
    | some v => some v
    | none =>
      match (sliceBetween cleanText lcurly rcurly).bind parse with
      | some v => some v
      | none => parse cleanText

/-- Digits of a decimal literal. -/
def digitsToNat (l : List Char) : Nat :=
  l.foldl (fun a c => 10 * a + (c.toNat - 48)) 0

/-- Parse an integer literal (an optional minus sign and at least one
digit). -/
def pNum (l : List Char) : Option (JsonVal × List Char) :=
  match l with
  | '-' :: r =>
    let ds := r.takeWhile Char.isDigit
    if ds = [] then none
    else some (.jnum (-(digitsToNat ds : ℤ)), r.dropWhile Char.isDigit)
  | _ =>
    let ds := l.takeWhile Char.isDigit
    if ds = [] then none
    else some (.jnum (digitsToNat ds : ℤ), l.dropWhile Char.isDigit)

mutual

/-- Fuel-indexed parser for one JSON value (integers and arrays). -/
def pVal : Nat → List Char → Option (JsonVal × List Char)
  | 0, _ => none
  | Nat.succ f, l =>
    let l1 := l.dropWhile jsWs
    match l1 with
    | '[' :: rest =>
      let rest1 := rest.dropWhile jsWs
      match rest1 with
      | ']' :: r2 => some (.jarr [], r2)
      | _ =>
        match pElems f rest1 with
        | some (vs, r2) => some (.jarr vs, r2)
        | none => none
    | _ => pNum l1

/-- Fuel-indexed parser for the comma-separated elements of an array,
including the closing bracket. -/
def pElems : Nat → List Char → Option (List JsonVal × List Char)
  | 0, _ => none
  | Nat.succ f, l =>
    match pVal f l with
    | none => none
    | some (v, r) =>
      let r1 := r.dropWhile jsWs
      match r1 with
      | ',' :: r2 =>
        match pElems f r2 with
        | some (vs, rr) => some (v :: vs, rr)
        | none => none
      | ']' :: r2 => some ([v], r2)
      | _ => none

end

/-- Modelled from the host `JSON.parse`, restricted to the JSON fragment
(integers and arrays of them) the stated inputs need; a parse error is
`none` where `JSON.parse` throws `SyntaxError`.  Trailing whitespace is
accepted, trailing garbage is not. -/
def miniParse (s : String) : Option JsonVal :=
  match pVal (s.data.length + 1) s.data with
  | some (v, r) => if r.dropWhile jsWs = [] then some v else none
  | none => none

theorem data_append (a b : String) : (a ++ b).data = a.data ++ b.data := rfl

theorem mk_data (s : String) : String.mk s.data = s := rfl

theorem mk_ne_empty {l : List Char} (h : l ≠ []) : String.mk l ≠ "" := by
  intro hc
  exact h (congrArg String.data hc)

/-- Every token of a split result is free of `jsWs` characters. -/
def wsFreeL (l : List String) : Prop := ∀ t ∈ l, ∀ c ∈ t.data, jsWs c = false

/-- Every token except possibly the last one is non-empty. -/
def exceptLastNE (l : List String) : Prop := ∀ i, i + 1 < l.length → l.getD i "" ≠ ""

theorem wsFreeL_tail {y : String} {l : List String} (h : wsFreeL (y :: l)) : wsFreeL l :=
  fun t ht => h t (List.mem_cons_of_mem y ht)

theorem exceptLastNE_tail {y : String} {l : List String} (h : exceptLastNE (y :: l)) :
    exceptLastNE l := by
  intro i hi
  have := h (i + 1) (by simpa using Nat.succ_lt_succ hi)
  simpa using this

theorem splitGo_allNonWs :
    ∀ (t acc : List Char), (∀ c ∈ t, jsWs c = false) →
      splitGo t acc = [String.mk (acc.reverse ++ t)] := by
  intro t
  induction t with
  | nil => intro acc _; simp [splitGo]
  | cons c t' ih =>
    intro acc h
    have hc : jsWs c = false := h c (List.mem_cons_self c t')
    have ht' : ∀ x ∈ t', jsWs x = false := fun x hx => h x (List.mem_cons_of_mem c hx)
    simp only [splitGo, hc, Bool.false_eq_true, if_false]
    rw [ih (c :: acc) ht']
    simp

theorem splitGo_append_ws :
    ∀ (t : List Char) (rest acc : List Char) (c : Char),
      (∀ x ∈ t, jsWs x = false) → jsWs c = true →
      splitGo (t ++ c :: rest) acc = String.mk (acc.reverse ++ t) :: skipWs rest := by
  intro t
  induction t with
  | nil => intro rest acc c _ hc; simp [splitGo, hc]
  | cons a t' ih =>
    intro rest acc c h hc
    have ha : jsWs a = false := h a (List.mem_cons_self a t')
    have ht' : ∀ x ∈ t', jsWs x = false := fun x hx => h x (List.mem_cons_of_mem a hx)
    have h1 : splitGo ((a :: t') ++ c :: rest) acc = splitGo (t' ++ c :: rest) (a :: acc) := by
      simp [splitGo, ha]
    rw [h1, ih rest (a :: acc) c ht' hc]
    simp

theorem split_wsFree_aux :
    ∀ l : List Char,
      (∀ acc, (∀ c ∈ acc, jsWs c = false) → wsFreeL (splitGo l acc)) ∧
        wsFreeL (skipWs l) := by
  intro l
  induction l with
  | nil =>
    constructor
    · intro acc hacc
      intro t ht c hc
      simp [splitGo] at ht
      subst ht
      simp at hc
      exact hacc c hc
    · intro t ht c hc
      simp [skipWs] at ht
      subst ht
      simp at hc
  | cons a rest ih =>
    constructor
    · intro acc hacc t ht c hc
      by_cases ha : jsWs a = true
      · simp only [splitGo, ha, if_true] at ht
        rcases List.mem_cons.mp ht with h1 | h2
        · subst h1
          simp at hc
          exact hacc c hc
        · exact ih.2 t h2 c hc
      · have ha' : jsWs a = false := by
          cases h : jsWs a
          · rfl
          · exact absurd h ha
        simp only [splitGo, ha', Bool.false_eq_true, if_false] at ht
        refine ih.1 (a :: acc) ?_ t ht c hc
        intro x hx
        rcases List.mem_cons.mp hx with h1 | h2
        · subst h1; exact ha'
        · exact hacc x h2
    · intro t ht c hc
      by_cases ha : jsWs a = true
      · simp only [skipWs, ha, if_true] at ht
        exact ih.2 t ht c hc
      · have ha' : jsWs a = false := by
          cases h : jsWs a
          · rfl
          · exact absurd h ha
        simp only [skipWs, ha', Bool.false_eq_true, if_false] at ht
        refine ih.1 [a] ?_ t ht c hc
        intro x hx
        simp at hx
        subst hx
        exact ha'

theorem split_exceptLast_aux :
    ∀ l : List Char,
      (∀ acc, acc ≠ [] → exceptLastNE (splitGo l acc)) ∧ exceptLastNE (skipWs l) := by
  intro l
  induction l with
  | nil =>
    constructor
    · intro acc _ i hi
      simp [splitGo] at hi
    · intro i hi
      simp [skipWs] at hi
  | cons a rest ih =>
    constructor
    · intro acc hacc i hi
      by_cases ha : jsWs a = true
      · simp only [splitGo, ha, if_true] at hi ⊢
        match i with
        | 0 =>
          simp only [List.getD_cons_zero]
          exact mk_ne_empty (by simpa using hacc)
        | Nat.succ j =>
          simp only [List.getD_cons_succ]
          refine ih.2 j ?_
          simpa [Nat.succ_lt_succ_iff] using hi
      · have ha' : jsWs a = false := by
          cases h : jsWs a
          · rfl
          · exact absurd h ha
        simp only [splitGo, ha', Bool.false_eq_true, if_false] at hi ⊢
        exact ih.1 (a :: acc) (by simp) i hi
    · intro i hi
      by_cases ha : jsWs a = true
      · simp only [skipWs, ha, if_true] at hi ⊢
        exact ih.2 i hi
      · have ha' : jsWs a = false := by
          cases h : jsWs a
          · rfl
          · exact absurd h ha
        simp only [skipWs, ha', Bool.false_eq_true, if_false] at hi ⊢
        exact ih.1 [a] (by simp) i hi

theorem jsSplitWs_wsFree (s : String) : wsFreeL (jsSplitWs s) :=
  (split_wsFree_aux s.data).1 [] (by simp)

theorem jsSplitWs_exceptLast (s : String)
    (h : ∀ c, s.data.head? = some c → jsWs c = false) : exceptLastNE (jsSplitWs s) := by
  unfold jsSplitWs
  cases hd : s.data with
  | nil =>
    intro i hi
    simp [splitGo] at hi
  | cons c rest =>
    have hc : jsWs c = false := h c (by rw [hd]; rfl)
    simp only [splitGo, hc, Bool.false_eq_true, if_false]
    exact (split_exceptLast_aux rest).1 [c] (by simp)

theorem skipWs_joinSp :
    ∀ l : List String, l ≠ [] → wsFreeL l → exceptLastNE l →
      skipWs ((joinSp l).data) = l := by
  intro l
  induction l with
  | nil => intro h; exact absurd rfl h
  | cons y l' ih =>
    intro _ hws hlast
    cases l' with
    | nil =>
      show skipWs y.data = [y]
      cases hy : y.data with
      | nil =>
        have : y = "" := congrArg String.mk hy
        rw [this]
        rfl
      | cons c cs =>
        have hcchars : ∀ x ∈ y.data, jsWs x = false := hws y (List.mem_cons_self y [])
        rw [hy] at hcchars
        have hc : jsWs c = false := hcchars c (List.mem_cons_self c cs)
        have hcs : ∀ x ∈ cs, jsWs x = false := fun x hx => hcchars x (List.mem_cons_of_mem c hx)
        have h1 : skipWs (c :: cs) = splitGo cs [c] := by simp [skipWs, hc]
        rw [h1, splitGo_allNonWs cs [c] hcs]
        have : String.mk (c :: cs) = y := by rw [← hy]
        simpa using this
    | cons z l'' =>
      have hy : y ≠ "" := by
        have := hlast 0 (by simp)
        simpa using this
      have hdata : (joinSp (y :: z :: l'')).data
          = y.data ++ ' ' :: (joinSp (z :: l'')).data := by
        show ((y ++ " ") ++ joinSp (z :: l'')).data = _
        rw [data_append, data_append]
        simp
      rw [hdata]
      cases hyd : y.data with
      | nil => exact absurd (congrArg String.mk hyd) hy
      | cons c cs =>
        have hcchars : ∀ x ∈ y.data, jsWs x = false := hws y (List.mem_cons_self y _)
        rw [hyd] at hcchars
        have hc : jsWs c = false := hcchars c (List.mem_cons_self c cs)
        have hcs : ∀ x ∈ cs, jsWs x = false := fun x hx => hcchars x (List.mem_cons_of_mem c hx)
        have h1 : skipWs ((c :: cs) ++ ' ' :: (joinSp (z :: l'')).data)
            = splitGo (cs ++ ' ' :: (joinSp (z :: l'')).data) [c] := by
          simp [skipWs, hc]
        rw [h1, splitGo_append_ws cs _ [c] ' ' hcs (by decide)]
        rw [ih (by simp) (wsFreeL_tail hws) (exceptLastNE_tail hlast)]
        have : String.mk (c :: cs) = y := by rw [← hyd]
        simp [this]

theorem splitGo_joinSp :
    ∀ l : List String, l ≠ [] → wsFreeL l → exceptLastNE l →
      splitGo ((joinSp l).data) [] = l := by
  intro l
  cases l with
  | nil => intro h; exact absurd rfl h
  | cons y l' =>
    intro _ hws hlast
    cases l' with
    | nil =>
      show splitGo y.data [] = [y]
      rw [splitGo_allNonWs y.data [] (hws y (List.mem_cons_self y []))]
      simp
    | cons z l'' =>
      have hdata : (joinSp (y :: z :: l'')).data
          = y.data ++ ' ' :: (joinSp (z :: l'')).data := by
        show ((y ++ " ") ++ joinSp (z :: l'')).data = _
        rw [data_append, data_append]
        simp
      rw [hdata, splitGo_append_ws y.data _ [] ' ' (hws y (List.mem_cons_self y _)) (by decide)]
      rw [skipWs_joinSp (z :: l'') (by simp) (wsFreeL_tail hws) (exceptLastNE_tail hlast)]
      simp

/-- Re-splitting the single-space join of a list of whitespace-free tokens
(all non-empty except possibly the last) recovers the tokens exactly. -/
theorem jsSplitWs_joinSp (l : List String) (h0 : l ≠ []) (h1 : wsFreeL l)
    (h2 : exceptLastNE l) : jsSplitWs (joinSp l) = l :=
  splitGo_joinSp l h0 h1 h2

theorem wsFreeL_set {l : List String} {a : String} (n : Nat)
    (hl : wsFreeL l) (ha : ∀ c ∈ a.data, jsWs c = false) : wsFreeL (l.set n a) := by
  intro t ht
  rcases List.mem_or_eq_of_mem_set ht with h | h
  · exact hl t h
  · subst h; exact ha

theorem exceptLastNE_set {l : List String} {a : String} {n : Nat}
    (hl : exceptLastNE l) (ha : a ≠ "") (hn : n < l.length) :
    exceptLastNE (l.set n a) := by
  intro i hi
  rw [List.length_set] at hi
  rw [List.getD_eq_getElem?_getD]
  by_cases hin : n = i
  · subst hin
    rw [List.getElem?_set_self hn]
    simpa using ha
  · rw [List.getElem?_set_ne hin]
    rw [← List.getD_eq_getElem?_getD]
    exact hl i hi

theorem split_ne_nil_aux :
    ∀ l : List Char, (∀ acc, splitGo l acc ≠ []) ∧ skipWs l ≠ [] := by
  intro l
  induction l with
  | nil =>
    constructor
    · intro acc; simp [splitGo]
    · simp [skipWs]
  | cons a r ih =>
    constructor
    · intro acc
      by_cases ha : jsWs a = true
      · simp [splitGo, ha]
      · have ha' : jsWs a = false := by
          cases h : jsWs a
          · rfl
          · exact absurd h ha
        simp only [splitGo, ha', Bool.false_eq_true, if_false]
        exact ih.1 (a :: acc)
    · by_cases ha : jsWs a = true
      · simp only [skipWs, ha, if_true]
        exact ih.2
      · have ha' : jsWs a = false := by
          cases h : jsWs a
          · rfl
          · exact absurd h ha
        simp only [skipWs, ha', Bool.false_eq_true, if_false]
        exact ih.1 [a]

theorem jsSplitWs_ne_nil (s : String) : jsSplitWs s ≠ [] :=
  (split_ne_nil_aux s.data).1 []

theorem mqmFold_eq_sum (rats : List CorrectionRationale) :
    mqmFold rats = (rats.map (fun r => sevWeight r.mqmSeverity)).sum := by
  have step : ∀ (a : Nat) (r : CorrectionRationale),
      (if r.mqmSeverity = MQMSeverity.Minor then a + 1
       else if r.mqmSeverity = MQMSeverity.Major then a + 5
       else a + 10) = a + sevWeight r.mqmSeverity := by
    intro a r
    cases h : r.mqmSeverity <;> simp [sevWeight, h]
  have aux : ∀ (l : List CorrectionRationale) (a : Nat),
      l.foldl
        (fun acc curr =>
          if curr.mqmSeverity = MQMSeverity.Minor then acc + 1
          else if curr.mqmSeverity = MQMSeverity.Major then acc + 5
          else acc + 10)
        a = a + (l.map (fun r => sevWeight r.mqmSeverity)).sum := by
    intro l
    induction l with
    | nil => intro a; simp
    | cons r t ih =>
      intro a
      rw [List.foldl_cons, step a r, ih]
      simp [Nat.add_assoc]
  unfold mqmFold
  rw [aux]
  simp

theorem translateGo_ok (g : String → Except Unit String) :
    ∀ (pages outs : List String), (translateGo g pages).2 = Except.ok outs →
      (translateGo g pages).1 = pages ∧ outs = pages.map (fun p => getOk (g p)) := by
  intro pages
  induction pages with
  | nil =>
    intro outs h
    simp [translateGo] at h
    simp [translateGo, h]
  | cons p rest ih =>
    intro outs h
    cases hg : g p with
    | error e =>
      simp only [translateGo, hg] at h
      exact Except.noConfusion h
    | ok t =>
      simp only [translateGo, hg] at h
      cases hr : (translateGo g rest).2 with
      | error e => rw [hr] at h; simp at h
      | ok ts =>
        rw [hr] at h
        simp at h
        obtain ⟨h1, h2⟩ := ih ts hr
        constructor
        · simp only [translateGo, hg]
          rw [h1]
        · subst h
          simp [getOk, hg, h2]

theorem translateGo_take (g : String → Except Unit String) :
    ∀ pages : List String,
      pages.take ((translateGo g pages).1.length) = (translateGo g pages).1 := by
  intro pages
  induction pages with
  | nil => simp [translateGo]
  | cons p rest ih =>
    cases hg : g p with
    | error e => simp [translateGo, hg]
    | ok t =>
      simp only [translateGo, hg]
      simp only [List.length_cons, List.take_succ_cons]
      rw [ih]

theorem jsRound_tokenFactor (w : Nat) :
    (jsRound ((w : ℚ) * TOKEN_FACTOR)).toNat = (27 * w + 10) / 20 := by
  have h : (w : ℚ) * TOKEN_FACTOR + 1/2 = (((27 * w + 10 : Nat) : ℤ) : ℚ) / ((20 : ℕ) : ℚ) := by
    unfold TOKEN_FACTOR
    push_cast
    ring
  unfold jsRound
  rw [h, Rat.floor_intCast_div_natCast]
  omega

/-- Decidable form of "the page text has no leading whitespace". -/
def noLeadWs (s : String) : Bool :=
  match s.data with
  | [] => true
  | c :: _ => !jsWs c

theorem noLeadWs_head {s : String} (h : noLeadWs s = true) :
    ∀ c, s.data.head? = some c → jsWs c = false := by
  intro c hc
  unfold noLeadWs at h
  cases hd : s.data with
  | nil => rw [hd] at hc; exact Option.noConfusion hc
  | cons a rest =>
    rw [hd] at hc h
    have : a = c := by simpa using hc
    subst this
    simpa using h

/-- A stored log used by the concrete intervention scenario of the claims:
`wordCount = 1000` with one prior Minor rationale. -/
def c1Log : TranslationLog where
  id := "L1"
  trackingId := "2025-001"
  functionalGroup := "ClinicalOperations"
  projectNumber := "AZ-PH1-2025"
  docType := "EssentialDocuments"
  timestamp := 50
  sourceLanguage := "English"
  targetLanguage := "Spanish"
  wordCount := 1000
  charCount := 5000
  pageCount := 1
  mode := "General"
  provider := "Gemini-3-Flash"
  status := .QCPending
  qcTimeSpentSeconds := 0
  workflowTimeCodes := [{ event := "START", timestamp := 50 }]
  estimatedCost := 0
  rationales := [{ originalText := "casa", updatedText := "hogar", rationale := "better",
                   timestamp := 51, pageIndex := 0, wordIndex := 0,
                   mqmSeverity := .Minor, mqmType := "Terminology" }]

/-- A session state about to confirm a Major-severity intervention on the
log `c1Log`. -/
def c1State : ToolState :=
  { initState with
    editedPages := ["hola mundo aqui"]
    currentPage := 0
    currentLogId := "L1"
    selectedWordData := some { word := "mundo", index := 1 }
    selectedAlt := "tierra"
    rationaleText := "terminology fix"
    mqmSeverity := .Major
    store := [c1Log]
    isWordModalOpen := true }

/-- A gateway that translates every page successfully. -/
def gOk : String → Except Unit String := fun t => Except.ok ("X" ++ t)

/-- A gateway that fails on every page. -/
def gFail : String → Except Unit String := fun _ => Except.error ()

/-- Upload a document, auto-translate it, enter review mode, then upload a
fresh document (which resets the status to Draft and the edited pages to
empty, but leaves review mode active). -/
def badTrace : List Event :=
  [.upload ["hola mundo"] 100 2025, .setInitiate, .translate gOk 101,
   .toggleReview, .upload ["segundo"] 102 2025]

/-- The session state reached by `badTrace`: a Draft session with no
translation whose Finalize bar is still rendered. -/
def sBad : ToolState := applyEvents initState badTrace

/-- A Draft session with a pending initiate-translation flag. -/
def s5State : ToolState :=
  { initState with
    initiateTranslation := true
    sourcePages := ["doc page"]
    currentLogId := "trans-7"
    currentTrackingId := "2025-001" }

theorem computeQuality_6_1000 : computeQuality 6 1000 = 99 := by
  have h : (100 * (1 - (6 : ℚ) / 1000) + 1 / 2) = ((999 : ℤ) : ℚ) / ((10 : ℕ) : ℚ) := by
    norm_num
  unfold computeQuality jsRound
  rw [if_neg (by norm_num), Nat.cast_ofNat, Nat.cast_ofNat, h, Rat.floor_intCast_div_natCast]
  decide

/-- C3: `generateTrackingId` returns `"{year}-{seq}"` where `seq` is the
count of stored logs whose trackingId starts with the current year, plus one,
zero-padded to 3 digits; deterministically, with zero existing 2025 logs it
returns `"2025-001"` and with two existing 2025 logs it returns
`"2025-003"`. -/
theorem c3_generateTrackingId (year : Nat) (store : List TranslationLog)
    (l1 l2 : TranslationLog)
    (h1 : strTakeEq l1.trackingId "2025" = true)
    (h2 : strTakeEq l2.trackingId "2025" = true) :
    generateTrackingId year store
      = toString year ++ "-"
          ++ padZero3 ((store.filter (fun l => strTakeEq l.trackingId (toString year))).length + 1)
    ∧ generateTrackingId 2025 ([] : List TranslationLog) = "2025-001"
    ∧ generateTrackingId 2025 [l1, l2] = "2025-003" := by
  refine ⟨rfl, by decide, ?_⟩
  unfold generateTrackingId
  have ht : (toString (2025 : Nat) : String) = "2025" := rfl
  rw [ht]
  rw [List.filter_cons_of_pos (by simpa using h1), List.filter_cons_of_pos (by simpa using h2)]
  simp only [List.filter_nil, List.length_cons, List.length_nil]
  decide

/-- C3 witness: the theorem instantiated at two concrete 2025 logs. -/
theorem c3_generateTrackingId_witness :
    strTakeEq c1Log.trackingId "2025" = true
    ∧ (generateTrackingId 2025 ([] : List TranslationLog)
        = toString 2025 ++ "-"
            ++ padZero3 ((List.filter (fun l => strTakeEq l.trackingId (toString 2025))
                ([] : List TranslationLog)).length + 1)
      ∧ generateTrackingId 2025 ([] : List TranslationLog) = "2025-001"
      ∧ generateTrackingId 2025 [c1Log, c1Log] = "2025-003") :=
  ⟨by decide, c3_generateTrackingId 2025 [] c1Log c1Log (by decide) (by decide)⟩

/-- C4: `calculateMetrics` computes `wordCount` as the number of non-empty
tokens of the space-joined page texts split on whitespace runs,
`tokenCount = round(wordCount × 1.35)` (equivalently `(27·w + 10) / 20` in
integer arithmetic), and `estimatedCost = tokenCount / 10⁶ × 0.75`, exactly;
it is a pure function of its input. -/
theorem c4_calculateMetrics (pages : List String) :
    (calculateMetrics pages).1
        = ((jsSplitWs (joinSp pages)).filter (fun w => w.length > 0)).length
    ∧ (calculateMetrics pages).2.1
        = (jsRound (((calculateMetrics pages).1 : ℚ) * TOKEN_FACTOR)).toNat
    ∧ (calculateMetrics pages).2.1 = (27 * (calculateMetrics pages).1 + 10) / 20
    ∧ (calculateMetrics pages).2.2
        = (((calculateMetrics pages).2.1 : ℚ) / 1000000) * COST_PER_1M_TOKENS
    ∧ TOKEN_FACTOR = 27 / 20
    ∧ COST_PER_1M_TOKENS = 3 / 4 := by
  refine ⟨rfl, rfl, jsRound_tokenFactor _, rfl, ?_, ?_⟩
  · unfold TOKEN_FACTOR; norm_num
  · unfold COST_PER_1M_TOKENS; norm_num

/-- C7: confirming an intervention with no selected word, an empty
replacement, or an empty rationale text is a complete no-op: the state —
including the page texts, the in-memory rationales and the persisted store —
is returned unchanged and no error is raised. -/
theorem c7_confirm_noop (s : ToolState) (now : Nat)
    (h : s.selectedWordData = none ∨ s.selectedAlt = "" ∨ s.rationaleText = "") :
    confirmIntervention now s = s := by
  rcases h with h | h | h
  · simp [confirmIntervention, h]
  · cases hwd : s.selectedWordData with
    | none => simp [confirmIntervention, hwd]
    | some wd => simp [confirmIntervention, hwd, h]
  · cases hwd : s.selectedWordData with
    | none => simp [confirmIntervention, hwd]
    | some wd => simp [confirmIntervention, hwd, h]

/-- C7 witness: a concrete state with an empty rationale text is left
untouched. -/
theorem c7_confirm_noop_witness :
    ({ c1State with rationaleText := "" } : ToolState).rationaleText = ""
    ∧ confirmIntervention 5 { c1State with rationaleText := "" }
        = { c1State with rationaleText := "" } :=
  ⟨rfl, c7_confirm_noop { c1State with rationaleText := "" } 5 (Or.inr (Or.inr rfl))⟩

theorem confirm_store_getD (s : ToolState) (now : Nat) (wd : SelWord) (idx : Nat)
    (hwd : s.selectedWordData = some wd)
    (ha : ¬ s.selectedAlt = "")
    (hr : ¬ s.rationaleText = "")
    (hidx : s.store.findIdx? (fun m => m.id = s.currentLogId) = some idx) :
    (confirmIntervention now s).store.getD idx default
      = confirmLogUpdate (s.store.getD idx default) (confirmRationale s now wd) := by
  have hcond : ¬(s.selectedAlt = "" ∨ s.rationaleText = "") := not_or.mpr ⟨ha, hr⟩
  have hlen : idx < s.store.length := (List.findIdx?_eq_some_iff_findIdx_eq.mp hidx).1
  simp only [confirmIntervention, hwd, hcond, hidx, if_false]
  rw [List.getD_eq_getElem?_getD, List.getElem?_set_self hlen]
  rfl

/-- C1: after a confirmed intervention, the persisted log at the session's
id has the new rationale appended, `mqmErrorScore` equal to the sum of the
severity weights (Minor=1, Major=5, Critical=10) over all of its rationales,
and `qualityScore = max(0, round(100 × (1 − mqmErrorScore / wordCount)))`;
in particular, for a log with `wordCount = 1000` whose rationales end up
`[Minor, Major]` the persisted quality score is 99. -/
theorem c1_confirm_scores (s : ToolState) (now : Nat) (wd : SelWord) (idx : Nat)
    (hwd : s.selectedWordData = some wd)
    (ha : ¬ s.selectedAlt = "")
    (hr : ¬ s.rationaleText = "")
    (hidx : s.store.findIdx? (fun m => m.id = s.currentLogId) = some idx) :
    ((confirmIntervention now s).store.getD idx default).rationales
        = (s.store.getD idx default).rationales ++ [confirmRationale s now wd]
    ∧ ((confirmIntervention now s).store.getD idx default).mqmErrorScore
        = some ((((confirmIntervention now s).store.getD idx default).rationales.map
            (fun r => sevWeight r.mqmSeverity)).sum)
    ∧ ((confirmIntervention now s).store.getD idx default).qualityScore
        = some (computeQuality
            ((((confirmIntervention now s).store.getD idx default).rationales.map
                (fun r => sevWeight r.mqmSeverity)).sum)
            (((confirmIntervention now s).store.getD idx default).wordCount))
    ∧ ((s.store.getD idx default).wordCount ≠ 0 →
        ((confirmIntervention now s).store.getD idx default).qualityScore
          = some (max 0 (jsRound (100 * (1 -
              (((((confirmIntervention now s).store.getD idx default).rationales.map
                  (fun r => sevWeight r.mqmSeverity)).sum : ℚ)
                / ((s.store.getD idx default).wordCount : ℚ)))))))
    ∧ ((confirmIntervention 5 c1State).store.getD 0 default).mqmErrorScore = some 6
    ∧ ((confirmIntervention 5 c1State).store.getD 0 default).qualityScore = some 99
    ∧ c1Log.wordCount = 1000
    ∧ ((confirmIntervention 5 c1State).store.getD 0 default).rationales.map
        (fun r => r.mqmSeverity) = [MQMSeverity.Minor, MQMSeverity.Major] := by
  have hL := confirm_store_getD s now wd idx hwd ha hr hidx
  have hLc := confirm_store_getD c1State 5 { word := "mundo", index := 1 } 0
    (by decide) (by decide) (by decide) (by decide)
  have hfold : mqmFold (c1Log.rationales
      ++ [confirmRationale c1State 5 { word := "mundo", index := 1 }]) = 6 := by decide
  refine ⟨?_, ?_, ?_, ?_, by decide, ?_, rfl, by decide⟩
  · rw [hL]; rfl
  · rw [hL]
    show some (mqmFold ((s.store.getD idx default).rationales ++ [confirmRationale s now wd]))
      = some ((((s.store.getD idx default).rationales
          ++ [confirmRationale s now wd]).map (fun r => sevWeight r.mqmSeverity)).sum)
    rw [mqmFold_eq_sum]
  · rw [hL]
    show some (computeQuality
        (mqmFold ((s.store.getD idx default).rationales ++ [confirmRationale s now wd]))
        (s.store.getD idx default).wordCount) = _
    rw [mqmFold_eq_sum]
    rfl
  · intro hwc
    rw [hL]
    show some (computeQuality
        (mqmFold ((s.store.getD idx default).rationales ++ [confirmRationale s now wd]))
        (s.store.getD idx default).wordCount) = _
    rw [mqmFold_eq_sum]
    unfold computeQuality
    rw [if_neg hwc]
    rfl
  · rw [hLc]
    show some (computeQuality
        (mqmFold (c1Log.rationales ++ [confirmRationale c1State 5 { word := "mundo", index := 1 }]))
        c1Log.wordCount) = some 99
    rw [hfold]
    rw [show c1Log.wordCount = 1000 from rfl]
    rw [computeQuality_6_1000]

/-- C1 witness: the theorem instantiated at the concrete Major-severity
intervention on `c1Log` (wordCount 1000, prior rationales `[Minor]`). -/
theorem c1_confirm_scores_witness :
    c1State.selectedWordData = some { word := "mundo", index := 1 }
    ∧ (¬ c1State.selectedAlt = "")
    ∧ (¬ c1State.rationaleText = "")
    ∧ c1State.store.findIdx? (fun m => m.id = c1State.currentLogId) = some 0
    ∧ ((confirmIntervention 5 c1State).store.getD 0 default).mqmErrorScore
        = some ((((confirmIntervention 5 c1State).store.getD 0 default).rationales.map
            (fun r => sevWeight r.mqmSeverity)).sum)
    ∧ ((confirmIntervention 5 c1State).store.getD 0 default).qualityScore = some 99 :=
  ⟨by decide, by decide, by decide, by decide,
   (c1_confirm_scores c1State 5 { word := "mundo", index := 1 } 0
     (by decide) (by decide) (by decide) (by decide)).2.1,
   (c1_confirm_scores c1State 5 { word := "mundo", index := 1 } 0
     (by decide) (by decide) (by decide) (by decide)).2.2.2.2.2.1⟩

/-- C10: for an edited page with no leading whitespace and a confirmed
intervention whose replacement is non-empty and whitespace-free and whose
word index is within the page's token list, `confirmIntervention` rewrites
only the clicked page: the page is re-joined with single spaces from its
token list with exactly the token at `wordIndex` replaced, so re-splitting
the new page text yields the old token list with only position `wordIndex`
changed and the token count preserved. -/
theorem c10_confirm_frame (s : ToolState) (now : Nat) (wd : SelWord)
    (hwd : s.selectedWordData = some wd)
    (ha : ¬ s.selectedAlt = "")
    (haws : ∀ c ∈ s.selectedAlt.data, jsWs c = false)
    (hr : ¬ s.rationaleText = "")
    (hpage : s.currentPage < s.editedPages.length)
    (hlead : noLeadWs (s.editedPages.getD s.currentPage "") = true)
    (hidx : wd.index < (jsSplitWs (s.editedPages.getD s.currentPage "")).length) :
    (confirmIntervention now s).editedPages
        = s.editedPages.set s.currentPage
            (joinSp ((jsSplitWs (s.editedPages.getD s.currentPage "")).set
              wd.index s.selectedAlt))
    ∧ jsSplitWs ((confirmIntervention now s).editedPages.getD s.currentPage "")
        = (jsSplitWs (s.editedPages.getD s.currentPage "")).set wd.index s.selectedAlt
    ∧ (jsSplitWs ((confirmIntervention now s).editedPages.getD s.currentPage "")).length
        = (jsSplitWs (s.editedPages.getD s.currentPage "")).length := by
  have hcond : ¬(s.selectedAlt = "" ∨ s.rationaleText = "") := not_or.mpr ⟨ha, hr⟩
  have hpages : (confirmIntervention now s).editedPages
      = s.editedPages.set s.currentPage
          (joinSp ((jsSplitWs (s.editedPages.getD s.currentPage "")).set
            wd.index s.selectedAlt)) := by
    simp only [confirmIntervention, hwd, hcond, if_false]
  have hget : (confirmIntervention now s).editedPages.getD s.currentPage ""
      = joinSp ((jsSplitWs (s.editedPages.getD s.currentPage "")).set
          wd.index s.selectedAlt) := by
    rw [hpages, List.getD_eq_getElem?_getD, List.getElem?_set_self hpage]
    rfl
  have hsplit : jsSplitWs ((confirmIntervention now s).editedPages.getD s.currentPage "")
      = (jsSplitWs (s.editedPages.getD s.currentPage "")).set wd.index s.selectedAlt := by
    rw [hget]
    refine jsSplitWs_joinSp _ ?_ ?_ ?_
    · intro hnil
      have h1 := congrArg List.length hnil
      rw [List.length_set] at h1
      simp only [List.length_nil] at h1
      rw [h1] at hidx
      exact Nat.not_lt_zero _ hidx
    · exact wsFreeL_set wd.index (jsSplitWs_wsFree _) haws
    · exact exceptLastNE_set (jsSplitWs_exceptLast _ (noLeadWs_head hlead)) ha hidx
  refine ⟨hpages, hsplit, ?_⟩
  rw [hsplit, List.length_set]

/-- C10 witness: replacing token 1 of the page `"hola mundo aqui"` with
`"tierra"`. -/
theorem c10_confirm_frame_witness :
    c1State.selectedWordData = some { word := "mundo", index := 1 }
    ∧ (¬ c1State.selectedAlt = "")
    ∧ (∀ c ∈ c1State.selectedAlt.data, jsWs c = false)
    ∧ (¬ c1State.rationaleText = "")
    ∧ c1State.currentPage < c1State.editedPages.length
    ∧ noLeadWs (c1State.editedPages.getD c1State.currentPage "") = true
    ∧ (1 : Nat) < (jsSplitWs (c1State.editedPages.getD c1State.currentPage "")).length
    ∧ jsSplitWs ((confirmIntervention 5 c1State).editedPages.getD c1State.currentPage "")
        = (jsSplitWs (c1State.editedPages.getD c1State.currentPage "")).set 1
            c1State.selectedAlt :=
  ⟨by decide, by decide, by decide, by decide, by decide, by decide, by decide,
   (c10_confirm_frame c1State 5 { word := "mundo", index := 1 }
     (by decide) (by decide) (by decide) (by decide) (by decide) (by decide)
     (by decide)).2.1⟩

/-- C5: for a non-empty page sequence, a successful translate calls the
gateway on exactly the input pages in order (one call per page, strictly
sequentially by construction of the loop), output position `i` is the
gateway's translation of input page `i`, the session status becomes
QC Pending, and exactly one new log is appended to the persisted store with
`workflowTimeCodes = [{event := "START", timestamp := now}]`. -/
theorem c5_translate_success (s : ToolState) (g : String → Except Unit String)
    (now : Nat) (outs : List String)
    (hinit : s.initiateTranslation = true)
    (hsp : s.sourcePages ≠ [])
    (hload : s.isLoading = false)
    (hep : s.editedPages = [])
    (hok : (translateGo g s.sourcePages).2 = Except.ok outs) :
    (translateGo g s.sourcePages).1 = s.sourcePages
    ∧ outs.length = s.sourcePages.length
    ∧ outs = s.sourcePages.map (fun p => getOk (g p))
    ∧ (applyEvent (.translate g now) s).qcStatus = .QCPending
    ∧ (applyEvent (.translate g now) s).editedPages = outs
    ∧ (applyEvent (.translate g now) s).store = s.store ++ [mkStartLog s now outs]
    ∧ (mkStartLog s now outs).workflowTimeCodes = [{ event := "START", timestamp := now }] := by
  obtain ⟨htr, hmap⟩ := translateGo_ok g s.sourcePages outs hok
  have happ : applyEvent (.translate g now) s = handleTranslate g now s := by
    simp only [applyEvent]
    rw [if_pos ⟨hinit, hsp, hload, hep⟩]
  have hne : ¬ s.sourcePages.length = 0 := by
    intro h
    exact hsp (List.length_eq_zero.mp h)
  have hht : handleTranslate g now s
      = { s with
          editedPages := outs
          qcStatus := .QCPending
          store := s.store ++ [mkStartLog s now outs]
          isLoading := false } := by
    unfold handleTranslate
    rw [if_neg hne]
    rw [hok]
  refine ⟨htr, by rw [hmap]; simp, hmap, ?_, ?_, ?_, rfl⟩
  · rw [happ, hht]
  · rw [happ, hht]
  · rw [happ, hht]

/-- C5 witness: translating the one-page document of `s5State` through the
always-successful gateway `gOk`. -/
theorem c5_translate_success_witness :
    s5State.initiateTranslation = true
    ∧ s5State.sourcePages ≠ []
    ∧ s5State.isLoading = false
    ∧ s5State.editedPages = []
    ∧ (translateGo gOk s5State.sourcePages).2 = Except.ok ["Xdoc page"]
    ∧ (translateGo gOk s5State.sourcePages).1 = s5State.sourcePages
    ∧ (applyEvent (.translate gOk 8) s5State).qcStatus = .QCPending
    ∧ (applyEvent (.translate gOk 8) s5State).store
        = s5State.store ++ [mkStartLog s5State 8 ["Xdoc page"]] :=
  ⟨by decide, by decide, by decide, by decide, by rfl,
   (c5_translate_success s5State gOk 8 ["Xdoc page"]
     (by decide) (by decide) (by decide) (by decide) (by rfl)).1,
   (c5_translate_success s5State gOk 8 ["Xdoc page"]
     (by decide) (by decide) (by decide) (by decide) (by rfl)).2.2.2.1,
   (c5_translate_success s5State gOk 8 ["Xdoc page"]
     (by decide) (by decide) (by decide) (by decide) (by rfl)).2.2.2.2.2.1⟩

/-- C6: if the gateway raises on any page, the translate handler surfaces
the blocking alert "Pipeline Failure" and performs no state transition: the
status stays Draft, the persisted store and the edited pages are unchanged,
and no retry happens (the pages actually sent form a prefix of the input,
each sent at most once). -/
theorem c6_translate_failure (s : ToolState) (g : String → Except Unit String)
    (now : Nat) (err : Unit)
    (hinit : s.initiateTranslation = true)
    (hsp : s.sourcePages ≠ [])
    (hload : s.isLoading = false)
    (hep : s.editedPages = [])
    (herr : (translateGo g s.sourcePages).2 = Except.error err)
    (hdraft : s.qcStatus = .Draft) :
    (applyEvent (.translate g now) s).qcStatus = .Draft
    ∧ (applyEvent (.translate g now) s).store = s.store
    ∧ (applyEvent (.translate g now) s).editedPages = s.editedPages
    ∧ (applyEvent (.translate g now) s).rationales = s.rationales
    ∧ (applyEvent (.translate g now) s).alerts = s.alerts ++ ["Pipeline Failure"]
    ∧ s.sourcePages.take ((translateGo g s.sourcePages).1.length)
        = (translateGo g s.sourcePages).1 := by
  have happ : applyEvent (.translate g now) s = handleTranslate g now s := by
    simp only [applyEvent]
    rw [if_pos ⟨hinit, hsp, hload, hep⟩]
  have hne : ¬ s.sourcePages.length = 0 := by
    intro h
    exact hsp (List.length_eq_zero.mp h)
  have hht : handleTranslate g now s
      = { s with
          alerts := s.alerts ++ ["Pipeline Failure"]
          initiateTranslation := false
          isLoading := false } := by
    unfold handleTranslate
    rw [if_neg hne]
    rw [herr]
  refine ⟨?_, ?_, ?_, ?_, ?_, translateGo_take g s.sourcePages⟩
  · rw [happ, hht]; exact hdraft
  · rw [happ, hht]
  · rw [happ, hht]
  · rw [happ, hht]
  · rw [happ, hht]

/-- C6 witness: translating the document of `s5State` through the
always-failing gateway `gFail`. -/
theorem c6_translate_failure_witness :
    s5State.initiateTranslation = true
    ∧ s5State.sourcePages ≠ []
    ∧ s5State.isLoading = false
    ∧ s5State.editedPages = []
    ∧ (translateGo gFail s5State.sourcePages).2 = Except.error ()
    ∧ s5State.qcStatus = .Draft
    ∧ (applyEvent (.translate gFail 8) s5State).qcStatus = .Draft
    ∧ (applyEvent (.translate gFail 8) s5State).store = s5State.store
    ∧ (applyEvent (.translate gFail 8) s5State).alerts
        = s5State.alerts ++ ["Pipeline Failure"] :=
  ⟨by decide, by decide, by decide, by decide, by rfl, by decide,
   (c6_translate_failure s5State gFail 8 ()
     (by decide) (by decide) (by decide) (by decide) (by rfl) (by decide)).1,
   (c6_translate_failure s5State gFail 8 ()
     (by decide) (by decide) (by decide) (by decide) (by rfl) (by decide)).2.1,
   (c6_translate_failure s5State gFail 8 ()
     (by decide) (by decide) (by decide) (by decide) (by rfl) (by decide)).2.2.2.2.1⟩

theorem updatePersistentStatus_getD (store : List TranslationLog) (logId : String)
    (st : QcStatus) (i : Nat)
    (hidx : store.findIdx? (fun m => m.id = logId) = some i) :
    ((updatePersistentStatus store logId st).getD i default).status = st := by
  have hlen : i < store.length := (List.findIdx?_eq_some_iff_findIdx_eq.mp hidx).1
  unfold updatePersistentStatus
  rw [hidx]
  rw [List.getD_eq_getElem?_getD, List.getElem?_set_self hlen]
  rfl

/-- C9: the Word and PDF download actions are enabled only in QC Finalized
or Downloaded (in Draft or QC Pending they are absent, so the event is a
no-op); when enabled, each sets the status to Downloaded both in memory and
on the persisted log of the session, and downloading is idempotent: from a
Downloaded session another download leaves the status Downloaded. -/
theorem c9_downloads (s : ToolState) (i : Nat)
    (hidx : s.store.findIdx? (fun m => m.id = s.currentLogId) = some i) :
    ((s.qcStatus = .Draft ∨ s.qcStatus = .QCPending) →
        applyEvent .downloadWord s = s ∧ applyEvent (.downloadPDF true) s = s)
    ∧ ((s.qcStatus = .QCFinalized ∨ s.qcStatus = .Downloaded) →
        (applyEvent .downloadWord s).qcStatus = .Downloaded
        ∧ ((applyEvent .downloadWord s).store.getD i default).status = .Downloaded
        ∧ (applyEvent (.downloadPDF true) s).qcStatus = .Downloaded
        ∧ ((applyEvent (.downloadPDF true) s).store.getD i default).status = .Downloaded
        ∧ (applyEvent .downloadWord (applyEvent .downloadWord s)).qcStatus = .Downloaded
        ∧ (applyEvent (.downloadPDF true)
            (applyEvent (.downloadPDF true) s)).qcStatus = .Downloaded) := by
  constructor
  · intro h
    have hneg : ¬(s.qcStatus = .QCFinalized ∨ s.qcStatus = .Downloaded) := by
      rcases h with h | h <;> rw [h] <;> simp
    constructor
    · simp only [applyEvent]
      rw [if_neg hneg]
    · simp only [applyEvent]
      rw [if_neg hneg]
  · intro h
    have hw : applyEvent .downloadWord s
        = { s with
            qcStatus := .Downloaded
            store := updatePersistentStatus s.store s.currentLogId .Downloaded } := by
      simp only [applyEvent]
      rw [if_pos h]
    have hp : applyEvent (.downloadPDF true) s
        = { s with
            qcStatus := .Downloaded
            store := updatePersistentStatus s.store s.currentLogId .Downloaded } := by
      simp only [applyEvent]
      rw [if_pos h]
      rfl
    have hagain : ∀ t : ToolState, t.qcStatus = .Downloaded →
        (applyEvent .downloadWord t).qcStatus = .Downloaded := by
      intro t ht
      simp only [applyEvent]
      rw [if_pos (Or.inr ht)]
    have hagainp : ∀ t : ToolState, t.qcStatus = .Downloaded →
        (applyEvent (.downloadPDF true) t).qcStatus = .Downloaded := by
      intro t ht
      simp only [applyEvent]
      rw [if_pos (Or.inr ht)]
      rfl
    refine ⟨by rw [hw], ?_, by rw [hp], ?_, ?_, ?_⟩
    · rw [hw]
      exact updatePersistentStatus_getD s.store s.currentLogId .Downloaded i hidx
    · rw [hp]
      exact updatePersistentStatus_getD s.store s.currentLogId .Downloaded i hidx
    · exact hagain _ (by rw [hw])
    · exact hagainp _ (by rw [hp])

/-- C9 witness: a finalized session over the stored log `c1Log`. -/
theorem c9_downloads_witness :
    ({ c1State with qcStatus := .QCFinalized } : ToolState).store.findIdx?
        (fun m => m.id = ({ c1State with qcStatus := .QCFinalized } : ToolState).currentLogId)
        = some 0
    ∧ (({ c1State with qcStatus := .QCFinalized } : ToolState).qcStatus = .QCFinalized
        ∨ ({ c1State with qcStatus := .QCFinalized } : ToolState).qcStatus = .Downloaded)
    ∧ (applyEvent .downloadWord { c1State with qcStatus := .QCFinalized }).qcStatus = .Downloaded
    ∧ ((applyEvent .downloadWord { c1State with qcStatus := .QCFinalized }).store.getD 0
        default).status = .Downloaded :=
  ⟨by decide, Or.inl (by decide),
   ((c9_downloads { c1State with qcStatus := .QCFinalized } 0 (by decide)).2
     (Or.inl (by decide))).1,
   ((c9_downloads { c1State with qcStatus := .QCFinalized } 0 (by decide)).2
     (Or.inl (by decide))).2.1⟩

/-- C2 (refuting theorem): the Finalize action does not require status
QC Pending, and finalizing a Draft session is not a no-op.  After
`badTrace` — upload, auto-translate, enter review mode, then upload a new
document — the session is in Draft with no translation, yet review mode is
still active (upload never resets it), the Finalize bar's render condition
holds, and clicking Finalize moves the in-memory status straight from Draft
to QC Finalized, skipping QC Pending; only the persisted store is left
unchanged (no log exists for the new session's id). -/
theorem c2_finalize_draft_bug :
    sBad.qcStatus = .Draft
    ∧ sBad.isReviewMode = true
    ∧ sBad.editedPages = []
    ∧ (sBad.isReviewMode = true ∧ sBad.qcStatus ≠ .QCFinalized ∧ sBad.qcStatus ≠ .Downloaded)
    ∧ (applyEvent .finalize sBad).qcStatus = .QCFinalized
    ∧ (applyEvent .finalize sBad).store = sBad.store
    ∧ applyEvent .finalize sBad ≠ sBad := by
  refine ⟨by decide, by decide, by decide, ⟨by decide, by decide, by decide⟩,
    by decide, by rfl, ?_⟩
  intro h
  have h1 : (applyEvent .finalize sBad).qcStatus = sBad.qcStatus :=
    congrArg ToolState.qcStatus h
  rw [show (applyEvent .finalize sBad).qcStatus = .QCFinalized by decide,
      show sBad.qcStatus = .Draft by decide] at h1
  exact QcStatus.noConfusion h1

/-- C8: `extractJson` never throws (it is a total function into `Option`):
for non-empty input it tries, in order, parsing the substring between the
first `[` and the last `]`, then the substring between the first brace and
the last brace, then the whole cleaned text, returning the first successful
parse and `none` if all three fail; on `"```json\n[1,2,3]\n```"` it returns
the array `[1,2,3]`, and on bracketless garbage it returns `none`. -/
theorem c8_extractJson (parse : String → Option JsonVal) (text : String) :
    extractJson parse "" = none
    ∧ (text ≠ "" →
        extractJson parse text
          = (((sliceBetween (stripFences (trimJs text)) '[' ']').bind parse).orElse
              (fun _ =>
                (((sliceBetween (stripFences (trimJs text)) lcurly rcurly).bind parse).orElse
                  (fun _ => parse (stripFences (trimJs text)))))))
    ∧ extractJson miniParse "```json\n[1,2,3]\n```"
        = some (.jarr [.jnum 1, .jnum 2, .jnum 3])
    ∧ extractJson miniParse "random garbage !!" = none := by
  refine ⟨rfl, ?_, by rfl, by rfl⟩
  intro ht
  unfold extractJson
  rw [if_neg ht]
  cases h1 : (sliceBetween (stripFences (trimJs text)) '[' ']').bind parse with
  | some v => simp [Option.orElse, h1]
  | none =>
    cases h2 : (sliceBetween (stripFences (trimJs text)) lcurly rcurly).bind parse with
    | some v => simp [Option.orElse, h1, h2]
    | none => simp [Option.orElse, h1, h2]

/-- C8 witness: the recovery chain evaluated at a concrete non-empty
input. -/
theorem c8_extractJson_witness :
    ("abc" : String) ≠ ""
    ∧ extractJson miniParse "abc"
        = (((sliceBetween (stripFences (trimJs "abc")) '[' ']').bind miniParse).orElse
            (fun _ =>
              (((sliceBetween (stripFences (trimJs "abc")) lcurly rcurly).bind miniParse).orElse
                (fun _ => miniParse (stripFences (trimJs "abc")))))) :=
  ⟨by decide, (c8_extractJson miniParse "abc").2.1 (by decide)⟩
